import Mathlib

/-!
Verification of the `pluck` repository (src/src/lib.rs).

The crate exports two declarative rewrite rules:

* `do_expression!(var, tokens…)` recursively rewrites a sequence of access
  tokens into a nested access expression, starting from the seed
  expression `var`;
* `pluck!(…)` wraps the fully expanded expression in a single-parameter
  lambda, optionally prefixed with `&` or `&mut`.

We embed the token grammar and the expansion rules as Lean inductive types
and functions, give the generated expressions a value semantics
(evaluation, plus a lens-style mutation semantics for the `&mut` variant),
and prove the specified properties.
-/

namespace Pluck

/-- A property access token: either a tuple index (`.0`, `.1`, …) or a
named field (`.name`).  In the source both are matched by the
`.$expr:tt` rule of `do_expression!`. -/
inductive PropTok where
  | num : Nat → PropTok
  | name : String → PropTok
deriving Repr, DecidableEq

/-- One access token of the chain handed to `do_expression!`:
`*` (dereference), `[e]` (index; the bracketed token is spliced verbatim
as the index expression, and every use in the crate is a literal, so we
embed it as a natural-number literal), `.p` (field or tuple index), or a
parenthesized group `( … )` holding a sub-chain. -/
inductive Tok where
  | star : Tok
  | brack : Nat → Tok
  | dot : PropTok → Tok
  | group : List Tok → Tok
deriving Repr

/-- Expressions produced by expansion: the seed variable (`value`, the
lambda parameter), indexing `e[i]`, dereference `*e`, and field/tuple
access `e.p`. -/
inductive Expr where
  | var : Expr
  | index : Expr → Nat → Expr
  | deref : Expr → Expr
  | field : Expr → PropTok → Expr
deriving Repr, DecidableEq

/-- Embedding of the `do_expression!` rules from src/src/lib.rs, lines
111–127, one equation per rule, in the source order:

* `($var, ($($exprs)*)$($tail)*) => do_expression!(do_expression!($var, $($exprs)*), $($tail)*)`
* `($var, [$expr]$($tail)*) => do_expression!($var[$expr], $($tail)*)`
* `($var, *$($tail)*) => *do_expression!($var, $($tail)*)`
* `($var, .$expr$($tail)*) => do_expression!($var.$expr, $($tail)*)`
* `($var,) => $var`

Note that in the `*` rule the dereference is placed around the recursive
expansion of the tail, with the accumulated expression passed through
unchanged. -/
def do_expression : Expr → List Tok → Expr
  | v, .group es :: tail => do_expression (do_expression v es) tail
  | v, .brack e :: tail => do_expression (.index v e) tail
  | v, .star :: tail => .deref (do_expression v tail)
  | v, .dot p :: tail => do_expression (.field v p) tail
  | v, [] => v

/-- The optional prefix of a `pluck!` invocation: none (plain value),
`&` (by reference) or `&mut` (by mutable reference). -/
inductive Modifier where
  | byValue : Modifier
  | byRef : Modifier
  | byMutRef : Modifier
deriving Repr, DecidableEq

/-- Embedding of the `pluck!` rules from src/src/lib.rs, lines 133–143.
Each of the three rules requires at least one token (`$($expr:tt)+`), so
an empty chain matches no rule and expansion fails; a nonempty chain
produces a lambda whose body is `do_expression!(value, chain)` under the
given modifier.  We return the modifier together with the expanded body
of the generated lambda, or `none` when no rule matches. -/
def pluck (m : Modifier) : List Tok → Option (Modifier × Expr)
  | [] => none
  | t :: tail => some (m, do_expression .var (t :: tail))

/-- Runtime values the generated lambdas are applied to in the crate's
tests and doc examples: integers, strings, references (`&T` layers,
which `*` strips via `Deref`), tuples, arrays (which `[i]` indexes via
`Index`), and structs with named fields. -/
inductive Value where
  | int : Nat → Value
  | str : String → Value
  | ref : Value → Value
  | tup : List Value → Value
  | arr : List Value → Value
  | strukt : List (String × Value) → Value
deriving Repr

/-- Field lookup in a struct value, first match wins. -/
def lookupField : List (String × Value) → String → Option Value
  | [], _ => none
  | (k, w) :: rest, s => if k = s then some w else lookupField rest s

/-- Evaluation of an expanded access expression against the value bound
to the lambda parameter: `*e` strips one reference layer, `e[i]` indexes
an array, `e.n` projects the n-th tuple component, `e.name` projects a
named struct field; every shape mismatch is a (compile-time, in Rust)
error, embedded as `none`. -/
def eval (env : Value) : Expr → Option Value
  | .var => some env
  | .deref e =>
    match eval env e with
    | some (.ref w) => some w
    | _ => none
  | .index e i =>
    match eval env e with
    | some (.arr vs) => vs.get? i
    | _ => none
  | .field e (.num n) =>
    match eval env e with
    | some (.tup vs) => vs.get? n
    | _ => none
  | .field e (.name s) =>
    match eval env e with
    | some (.strukt fs) => lookupField fs s
    | _ => none

/-- Applying the lambda generated by `pluck!` to a value.  The `&` and
`&mut` rules prefix the expanded body with a reference-taking operator,
so reading through the result adds one reference layer around the value
of the body; the plain rule returns the body's value itself. -/
def apply_pluck (m : Modifier) (toks : List Tok) (v : Value) : Option Value :=
  match pluck m toks with
  | none => none
  | some (.byValue, e) => eval v e
  | some (.byRef, e) => (eval v e).map .ref
  | some (.byMutRef, e) => (eval v e).map .ref

/-- Update the n-th element of a list, `none` when out of range. -/
def setNth : List Value → Nat → Value → Option (List Value)
  | [], _, _ => none
  | _ :: rest, 0, w => some (w :: rest)
  | x :: rest, n + 1, w => (setNth rest n w).map (fun l => x :: l)

/-- Update a named field of a struct, `none` when absent. -/
def setField : List (String × Value) → String → Value → Option (List (String × Value))
  | [], _, _ => none
  | (k, x) :: rest, s, w =>
    if k = s then some ((k, w) :: rest)
    else (setField rest s w).map (fun l => (k, x) :: l)

/-- Mutation through the place denoted by an expanded access expression:
`mutate e f env` applies the partial update `f` to the sub-value of
`env` that `e` designates and returns the updated whole value.  This is
the lens semantics of the mutable reference `&mut e` the `&mut` rule of
`pluck!` produces: writing through the reference updates exactly the
designated component of the original value. -/
def mutate : Expr → (Value → Option Value) → Value → Option Value
  | .var, f, env => f env
  | .deref e, f, env =>
    mutate e (fun v =>
      match v with
      | .ref w => (f w).map .ref
      | _ => none) env
  | .index e i, f, env =>
    mutate e (fun v =>
      match v with
      | .arr vs =>
        match vs.get? i with
        | some w => (f w).bind (fun w2 => (setNth vs i w2).map .arr)
        | none => none
      | _ => none) env
  | .field e (.num n), f, env =>
    mutate e (fun v =>
      match v with
      | .tup vs =>
        match vs.get? n with
        | some w => (f w).bind (fun w2 => (setNth vs n w2).map .tup)
        | none => none
      | _ => none) env
  | .field e (.name s), f, env =>
    mutate e (fun v =>
      match v with
      | .strukt fs =>
        match lookupField fs s with
        | some w => (f w).bind (fun w2 => (setField fs s w2).map .strukt)
        | none => none
      | _ => none) env

/-- Mutating the component a `pluck!(&mut chain)` lambda points at:
expand the chain, then update through the resulting place. -/
def mutThrough (toks : List Tok) (f : Value → Option Value) (v : Value) : Option Value :=
  match pluck .byMutRef toks with
  | some (_, e) => mutate e f v
  | none => none

/-- `mutThrough` applied elementwise over a list, as the crate's doc
example does with `iter_mut().map(pluck!(&mut .0))`. -/
def mutateAll (toks : List Tok) (f : Value → Option Value) : List Value → Option (List Value)
  | [] => some []
  | v :: rest =>
    match mutThrough toks f v, mutateAll toks f rest with
    | some w, some ws => some (w :: ws)
    | _, _ => none

/-- The partial update used in the `&mut .0` doc example: `*num += 1`. -/
def incrInt : Value → Option Value
  | .int n => some (.int (n + 1))
  | _ => none

/-- `k` layers of reference around a value. -/
def wrapRef : Nat → Value → Value
  | 0, v => v
  | n + 1, v => .ref (wrapRef n v)

/-- Fuel-bounded variant of `do_expression`, one unit of fuel per
recursive rewriting step; `none` when the fuel runs out.  Used to state
termination: a fuel budget of the size of the token sequence always
suffices. -/
def expandFuel : Nat → Expr → List Tok → Option Expr
  | _, v, [] => some v
  | 0, _, _ :: _ => none
  | f + 1, v, .group es :: tail =>
    match expandFuel f v es with
    | some w => expandFuel f w tail
    | none => none
  | f + 1, v, .brack e :: tail => expandFuel f (.index v e) tail
  | f + 1, v, .star :: tail => (expandFuel f v tail).map .deref
  | f + 1, v, .dot p :: tail => expandFuel f (.field v p) tail

/-- C1 counterexample.  The claim states that for seed `v` and chain
`*[e]` the expanded expression is the index operation applied to the
dereference of `v`, i.e. `(*v)[e]`.  At the concrete input `v = var`,
`e = 0` the expander instead produces the dereference of the index
operation, `*(v[0])`: the `*` rule of `do_expression!` wraps the
dereference around the expansion of the remaining tokens, not around
the accumulated expression. -/
theorem deref_rewrap_counterexample :
    do_expression .var [.star, .brack 0] ≠ .index (.deref .var) 0 := by
  simp [do_expression]

/-- C1 (amended).  When the remaining tokens start with `*`, the expander
continues expansion of the remaining tokens with the accumulated
expression unchanged, and wraps the result of that expansion in a
dereference; in particular, for every seed `v` and chain `*[e]`, the
expanded expression is the dereference applied to the index operation on
`v` (the dereference wraps the expansion of the rest of the chain, not
the result accumulated so far). -/
theorem deref_rewraps_tail_expansion (v : Expr) (tail : List Tok) (e : Nat) :
    do_expression v (.star :: tail) = .deref (do_expression v tail) ∧
    do_expression v [.star, .brack e] = .deref (.index v e) := by
  constructor
  · simp [do_expression]
  · simp [do_expression]

/-- C2.  A leading parenthesized group is expanded recursively with the
current accumulated expression as its seed, and the tokens after the
group continue from that recursive result; in particular, for seed `v`
the chain `(*[0]).name` expands to the field access `.name` applied to
the expansion of `*[0]` with seed `v`. -/
theorem group_expansion_seeded (v : Expr) (gts tail : List Tok) :
    do_expression v (.group gts :: tail) = do_expression (do_expression v gts) tail ∧
    do_expression v [.group [.star, .brack 0], .dot (.name "name")] =
      .field (do_expression v [.star, .brack 0]) (.name "name") := by
  constructor
  · simp [do_expression]
  · simp [do_expression]

/-- C3.  For every value `x` and every `k` in `{1, 2, 3}`, the lambda
generated by `pluck!` for a chain of `k` repeated `*` tokens, applied to
`x` wrapped in `k` layers of reference, returns `x` fully unwrapped. -/
theorem deref_chain_roundtrip (x : Value) :
    apply_pluck .byValue [.star] (.ref x) = some x ∧
    apply_pluck .byValue [.star, .star] (.ref (.ref x)) = some x ∧
    apply_pluck .byValue [.star, .star, .star] (.ref (.ref (.ref x))) = some x := by
  refine ⟨?_, ?_, ?_⟩ <;> simp [apply_pluck, pluck, do_expression, eval]

/-- C4.  For every pair `(a, b)`, the lambda generated for the chain `.0`
applied to `(a, b)` returns `a`, and the one generated for `.1` returns
`b`. -/
theorem tuple_index_pluck (a b : Value) :
    apply_pluck .byValue [.dot (.num 0)] (.tup [a, b]) = some a ∧
    apply_pluck .byValue [.dot (.num 1)] (.tup [a, b]) = some b := by
  constructor <;> simp [apply_pluck, pluck, do_expression, eval]

/-- C5.  Reference modifier law: whenever the lambda generated for
`<chain>` (no modifier) applied to `v` returns `w`, the lambda generated
for `&<chain>` applied to `v` returns a reference whose pointed-to value
is `w`. -/
theorem ref_modifier_law (toks : List Tok) (v w : Value)
    (h : apply_pluck .byValue toks v = some w) :
    apply_pluck .byRef toks v = some (.ref w) := by
  cases toks with
  | nil => simp [apply_pluck, pluck] at h
  | cons t tail =>
    simp [apply_pluck, pluck] at h ⊢
    simp [h]

/-- Witness for C5 at the chain `.0` and value `(3, "a")`. -/
theorem ref_modifier_law_witness :
    apply_pluck .byValue [.dot (.num 0)] (.tup [.int 3, .str "a"]) = some (.int 3) ∧
    apply_pluck .byRef [.dot (.num 0)] (.tup [.int 3, .str "a"]) = some (.ref (.int 3)) :=
  ⟨by simp [apply_pluck, pluck, do_expression, eval],
   ref_modifier_law _ _ _ (by simp [apply_pluck, pluck, do_expression, eval])⟩

/-- C6.  Mutating through the lambda generated for `&mut .0` over the
list `[(0, "a"), (1, "b"), (2, "c")]`, incrementing each referenced
value, yields `[(1, "a"), (2, "b"), (3, "c")]`: the mutation is
observable in the original values, and every second tuple component is
unchanged. -/
theorem mut_pluck_end_to_end :
    mutateAll [.dot (.num 0)] incrInt
      [.tup [.int 0, .str "a"], .tup [.int 1, .str "b"], .tup [.int 2, .str "c"]] =
    some [.tup [.int 1, .str "a"], .tup [.int 2, .str "b"], .tup [.int 3, .str "c"]] := by
  simp [mutateAll, mutThrough, pluck, do_expression, mutate, incrInt, setNth]

/-- C7.  For every nested record `Outer { inner: Inner { field: v } }`,
the lambda generated for the chain `.inner.field` returns `v`: the dot
rule applies left to right, consuming one property token per step. -/
theorem nested_field_pluck (v : Value) :
    apply_pluck .byValue [.dot (.name "inner"), .dot (.name "field")]
      (.strukt [("inner", .strukt [("field", v)])]) = some v := by
  simp [apply_pluck, pluck, do_expression, eval, lookupField]

/-- C8.  Every rule of `pluck!` requires at least one token, so the empty
chain matches no rule and expansion fails for every modifier. -/
theorem empty_chain_rejected (m : Modifier) : pluck m [] = none := by
  cases m <;> simp [pluck]

/-- C9.  Expansion terminates on every finite token sequence: a fuel
budget of the size of the sequence bounds the recursion of the expander,
and with that much fuel the fuel-bounded expander never runs out and
agrees with `do_expression`. -/
theorem expansion_terminates (v : Expr) (toks : List Tok) (fuel : Nat)
    (h : sizeOf toks ≤ fuel) :
    expandFuel fuel v toks = some (do_expression v toks) := by
  induction fuel generalizing v toks with
  | zero =>
    cases toks with
    | nil => simp [expandFuel, do_expression]
    | cons t tail => simp at h
  | succ f ih =>
    cases toks with
    | nil => simp [expandFuel, do_expression]
    | cons t tail =>
      cases t with
      | star =>
        have ht : sizeOf tail ≤ f := by simp at h; omega
        simp [expandFuel, do_expression, ih _ _ ht]
      | brack e =>
        have ht : sizeOf tail ≤ f := by simp at h; omega
        simp [expandFuel, do_expression, ih _ _ ht]
      | dot p =>
        have ht : sizeOf tail ≤ f := by simp at h; omega
        simp [expandFuel, do_expression, ih _ _ ht]
      | group es =>
        have hes : sizeOf es ≤ f := by simp at h; omega
        have ht : sizeOf tail ≤ f := by simp at h; omega
        simp [expandFuel, do_expression, ih _ _ hes, ih _ _ ht]

/-- Witness for C9 at the chain `(*[0]).0` with fuel 32. -/
theorem expansion_terminates_witness :
    sizeOf [Tok.group [Tok.star, Tok.brack 0], Tok.dot (.num 0)] ≤ 32 ∧
    expandFuel 32 .var [Tok.group [Tok.star, Tok.brack 0], Tok.dot (.num 0)] =
      some (do_expression .var [Tok.group [Tok.star, Tok.brack 0], Tok.dot (.num 0)]) :=
  ⟨by decide, expansion_terminates _ _ _ (by decide)⟩

/-- C10.  The `&` modifier binds outside the entire expanded chain: for
every value `x` wrapped in three layers of reference, the lambda
generated for `&***` returns a reference whose pointed-to value is the
fully unwrapped `x`. -/
theorem ref_outside_whole_chain (x : Value) :
    apply_pluck .byRef [.star, .star, .star] (.ref (.ref (.ref x))) =
      some (.ref x) := by
  simp [apply_pluck, pluck, do_expression, eval]

end Pluck
